import Mathlib

/-!
Verification of the Orchestrator core of the multi-agent task solver
(src/app/orchestrator.py, with data model from src/app/models.py and the
registries from src/app/agents.py and src/app/tools.py).

The Python code is shallowly embedded: JSON-like Python values become the
inductive type Value, pydantic models become structures, the networkx
DiGraph built by Orchestrator._build_graph becomes PyDiGraph together with
a Kahn layering (the algorithm behind nx.is_directed_acyclic_graph and
nx.topological_generations), and the tenacity retry driver
(AsyncRetrying with stop_after_attempt, wait_exponential, reraise=True)
becomes the recursive function retryGo.

Agent step implementations are external collaborators of the core under
specification, so node execution is parameterised by a step function
giving the outcome of each invocation attempt; the orchestrator logic
itself (registry lookup, input resolution, retry control, layer
scheduling, result recording) is translated from the source.

Scheduling model: asyncio runs each layer task up to its first suspension
point before the scheduler processes any completion, so every task of a
layer resolves its inputs against the context as it stood when the layer
started; the model processes completions of a layer in task-creation
order, which is the actual completion order in every concrete scenario
used below (earlier-listed tasks finish no later than later-listed ones).
-/

/-- A Python value as it occurs in graph specs and agent results:
None, bool, int, str, list, dict with string keys. -/
inductive Value where
  | vNone : Value
  | vBool : Bool → Value
  | vInt : Int → Value
  | vStr : String → Value
  | vList : List Value → Value
  | vDict : List (String × Value) → Value

mutual

/-- Python repr of a Value (repr of a string quotes it). Used by pyStr. -/
def pyRepr : Value → String
  | .vNone => "None"
  | .vBool b => if b then "True" else "False"
  | .vInt n => toString n
  | .vStr s => "\x27" ++ s ++ "\x27"
  | .vList xs => "[" ++ String.intercalate ", " (pyReprList xs) ++ "]"
  | .vDict m => "\x7b" ++ String.intercalate ", " (pyReprDict m) ++ "\x7d"

/-- repr of the elements of a Python list. -/
def pyReprList : List Value → List String
  | [] => []
  | v :: vs => pyRepr v :: pyReprList vs

/-- repr of the entries of a Python dict. -/
def pyReprDict : List (String × Value) → List String
  | [] => []
  | (k, v) :: m => ("\x27" ++ k ++ "\x27: " ++ pyRepr v) :: pyReprDict m
end

/-- Python str() of a Value: the string itself for str, repr otherwise. -/
def pyStr : Value → String
  | .vStr s => s
  | v => pyRepr v

/-- models.py ToolConfig: tool name plus config map. -/
structure ToolConfig where
  name : String
  config : List (String × Value)

/-- models.py AgentConfig: agent name, params, tool references. -/
structure AgentConfig where
  name : String
  params : List (String × Value)
  tools : List ToolConfig

/-- models.py NodeSpec. timeout_seconds and max_retries are the ints of
the pydantic model; the spec constrains them to positive resp.
non-negative, and the retry driver below only reads max_retries. -/
structure NodeSpec where
  id : String
  agent : AgentConfig
  inputs : List (String × Value)
  timeout_seconds : Nat := 20
  max_retries : Nat := 2

/-- models.py EdgeSpec: target depends on source. -/
structure EdgeSpec where
  source : String
  target : String

/-- models.py GraphSpec. -/
structure GraphSpec where
  nodes : List NodeSpec
  edges : List EdgeSpec

/-- agents.py AGENT_REGISTRY: the names of the registered agent classes. -/
def AGENT_REGISTRY : List String := ["echo", "sum", "http_get"]

/-- agents.py TOOL_REGISTRY: the names of the registered tool classes. -/
def TOOL_REGISTRY : List String := ["data_fetcher", "chart_generator"]

/-- The run context: Python dict mapping node id to that node's recorded
result value (insertion-ordered association list, unique keys). -/
abbrev RunContext := List (String × Value)

/-- Python dict assignment d[k] = v: replace the value at k in place, or
append a new entry. -/
def dictSet : List (String × Value) → String → Value → List (String × Value)
  | [], k, v => [(k, v)]
  | (k0, v0) :: rest, k, v =>
      if k0 = k then (k, v) :: rest else (k0, v0) :: dictSet rest k v

/-- A character of the id/key charset [a-zA-Z0-9_-] of REF_RE
(orchestrator.py line 19). -/
def idChar (c : Char) : Bool :=
  c.isAlpha || c.isDigit || c = '_' || c = '-'

def lbrace : Char := '\x7b'

def rbrace : Char := '\x7d'

/-- Maximal run of id characters at the front of the input, with the rest
(the greedy matching of one [a-zA-Z0-9_-]+ group). -/
def takeWhileId : List Char → List Char × List Char
  | [] => ([], [])
  | c :: cs =>
      if idChar c then
        let p := takeWhileId cs
        (c :: p.1, p.2)
      else ([], c :: cs)

/-- Try to match REF_RE at the head of the input. On success, return the
node id group, the key group, and the input after the match. The regex
has no backtracking freedom here: both groups exclude the dot and the
closing brace, so greedy maximal munch is exact. -/
def tryRef (l : List Char) : Option (String × String × List Char) :=
  match l with
  | c0 :: c1 :: rest =>
      if c0 = '$' && c1 = lbrace then
        let p1 := takeWhileId rest
        if p1.1.isEmpty then none
        else
          match p1.2 with
          | c2 :: r2 =>
              if c2 = '.' then
                let p2 := takeWhileId r2
                if p2.1.isEmpty then none
                else
                  match p2.2 with
                  | c3 :: r4 =>
                      if c3 = rbrace then some (⟨p1.1⟩, ⟨p2.1⟩, r4) else none
                  | [] => none
              else none
          | [] => none
      else none
  | _ => none

/-- The replacement for one matched reference: the body of _rep in
Orchestrator._resolve_inputs (orchestrator.py lines 29-36). A missing
node id gives the missing sentinel; an entry that is not a dict makes
the .get call raise, giving the badctx sentinel; a dict entry gives
str() of the looked-up value, or the missing_key sentinel. -/
def refLookup (context : RunContext) (nid key : String) : String :=
  match context.lookup nid with
  | none => "<missing:" ++ nid ++ ">"
  | some (.vDict m) =>
      match m.lookup key with
      | some v => pyStr v
      | none => "<missing_key:" ++ key ++ ">"
  | some _ => "<badctx:" ++ nid ++ ">"

/-- The scan of REF_RE.sub: at each position try to match the pattern;
on a match emit the replacement and continue after it, otherwise copy one
character. Fuel is an upper bound on the input length, consumed one unit
per position, so any fuel at least the length gives the full scan. -/
def subRefs (context : RunContext) : Nat → List Char → List Char
  | _, [] => []
  | 0, l => l
  | f + 1, c :: rest =>
      match tryRef (c :: rest) with
      | some (nid, key, rest2) =>
          (refLookup context nid key).data ++ subRefs context f rest2
      | none => c :: subRefs context f rest

/-- replace_refs in Orchestrator._resolve_inputs: REF_RE.sub over one
string value. -/
def replaceRefs (context : RunContext) (s : String) : String :=
  ⟨subRefs context s.data.length s.data⟩

/-- Resolution of one input value: strings are scanned for references,
every other value passes through unchanged. -/
def resolveVal (context : RunContext) : Value → Value
  | .vStr s => .vStr (replaceRefs context s)
  | v => v

/-- Orchestrator._resolve_inputs (orchestrator.py lines 26-45). -/
def resolve_inputs (node : NodeSpec) (context : RunContext) :
    List (String × Value) :=
  node.inputs.map (fun kv => (kv.1, resolveVal context kv.2))

/-- The networkx DiGraph built by Orchestrator._build_graph: node ids in
insertion order without duplicates, the node attribute dict (the spec
attached as the "node" attribute, absent for ids that were only created
implicitly by add_edge), and the edge list without duplicates. -/
structure PyDiGraph where
  nodeOrder : List String
  attr : List (String × NodeSpec)
  edges : List (String × String)

/-- g.add_node(n.id, node=n): appends a fresh id, and (re)binds the node
attribute (networkx updates attributes of an existing node in place). -/
def addNode (g : PyDiGraph) (n : NodeSpec) : PyDiGraph :=
  { nodeOrder :=
      if g.nodeOrder.contains n.id then g.nodeOrder else g.nodeOrder ++ [n.id]
    attr := dictSetNode g.attr n.id n
    edges := g.edges }
where
  /-- dict assignment for the node-attribute map. -/
  dictSetNode : List (String × NodeSpec) → String → NodeSpec →
      List (String × NodeSpec)
    | [], k, v => [(k, v)]
    | (k0, v0) :: rest, k, v =>
        if k0 = k then (k, v) :: rest else (k0, v0) :: dictSetNode rest k v

/-- g.add_edge(s, t): networkx silently creates missing endpoints as
attribute-less nodes and ignores duplicate edges. -/
def addEdge (g : PyDiGraph) (s t : String) : PyDiGraph :=
  let no1 := if g.nodeOrder.contains s then g.nodeOrder else g.nodeOrder ++ [s]
  let no2 := if no1.contains t then no1 else no1 ++ [t]
  { nodeOrder := no2
    attr := g.attr
    edges := if g.edges.contains (s, t) then g.edges else g.edges ++ [(s, t)] }

/-- The graph assembled by the two loops of Orchestrator._build_graph
(orchestrator.py lines 48-52). -/
def buildRaw (spec : GraphSpec) : PyDiGraph :=
  let g1 := spec.nodes.foldl (fun g n => addNode g n) ⟨[], [], []⟩
  spec.edges.foldl (fun g e => addEdge g e.source e.target) g1

/-- Whether v has an incoming edge from a node still in remaining. -/
def hasIncoming (edges : List (String × String)) (remaining : List String)
    (v : String) : Bool :=
  edges.any (fun e => e.2 = v && remaining.contains e.1)

/-- Kahn peeling, the algorithm behind nx.is_directed_acyclic_graph and
nx.topological_generations: repeatedly remove every remaining node with
no incoming edge from a remaining node. Returns the generations in order
plus the leftover nodes (nonempty exactly when a cycle remains). Each
round removes at least one node, so fuel = number of nodes suffices. -/
def kahnAux (edges : List (String × String)) :
    Nat → List String → List (List String) × List String
  | 0, remaining => ([], remaining)
  | f + 1, remaining =>
      let layer := remaining.filter (fun v => !hasIncoming edges remaining v)
      if layer.isEmpty then ([], remaining)
      else
        let rest := remaining.filter (fun v => !layer.contains v)
        let p := kahnAux edges f rest
        (layer :: p.1, p.2)

/-- nx.topological_generations over the built graph. -/
def topological_generations (g : PyDiGraph) : List (List String) :=
  (kahnAux g.edges g.nodeOrder.length g.nodeOrder).1

/-- nx.is_directed_acyclic_graph over the built graph. -/
def is_dag (g : PyDiGraph) : Bool :=
  (kahnAux g.edges g.nodeOrder.length g.nodeOrder).2.isEmpty

/-- The Python exceptions escaping Orchestrator.run_graph. -/
inductive PyError where
  | valueError : String → PyError
  | keyError : String → PyError
  | unboundLocalError : String → PyError

/-- Orchestrator._build_graph (orchestrator.py lines 47-55): assemble the
DiGraph, then raise ValueError unless it is a DAG. There is no other
validation. -/
def build_graph (spec : GraphSpec) : Except PyError PyDiGraph :=
  let g := buildRaw spec
  if is_dag g then .ok g
  else .error (.valueError "Execution graph must be a DAG")

/-- Outcome of one invocation attempt of a node's step (the await of
agent.run under async_timeout): a returned value, a raised exception
with its str(), or exceeding timeout_seconds (TimeoutError, whose str()
is empty). -/
inductive StepResult where
  | ok : Value → StepResult
  | exn : String → StepResult
  | timeout : StepResult

/-- The behaviour of the registered agents, external to the core: the
outcome of invoking a node's step with given resolved inputs on a given
attempt number (1-based). -/
abbrev StepFn := NodeSpec → List (String × Value) → Nat → StepResult

/-- str() of the exception raised by a failed attempt. -/
def stepErrMsg : StepResult → String
  | .exn m => m
  | _ => ""

/-- Observable events of a run: a step invocation start (with its attempt
number), a backoff sleep, and a task reaching its terminal state. -/
inductive Event where
  | invoke : String → Nat → Event
  | sleep : String → ℚ → Event
  | terminal : String → Bool → Event

/-- The value of tenacity wait_exponential(multiplier=0.5, min=0.5,
max=4) after failed attempt n, from tenacity wait.py:
max(max(0, min), min(multiplier * exp_base ** (attempt_number - 1), max)).
All quantities are dyadic rationals, exactly representable as floats, so
rational arithmetic is faithful. -/
def backoffWait (n : Nat) : ℚ :=
  max (max 0 (1 / 2)) (min ((1 / 2) * 2 ^ (n - 1)) 4)

/-- Result of a node task: the (node.id, result) pair returned on
success, or the exception message the coroutine raised. -/
inductive NodeOutcome where
  | ok : String → Value → NodeOutcome
  | err : String → NodeOutcome

/-- The tenacity AsyncRetrying loop of Orchestrator._run_node
(orchestrator.py lines 78-85): attempt n runs; on success return
immediately; on failure stop (reraising the last exception) once
n reaches max_retries, else sleep backoffWait n and try attempt n+1.
The first attempt always runs, so fuel = max_retries - n counts the
retries still allowed (natural subtraction: max_retries = 0 behaves as
a single attempt, exactly as stop_after_attempt(0) does). -/
def retryGo (step : StepFn) (node : NodeSpec)
    (inputs : List (String × Value)) : Nat → Nat → NodeOutcome × List Event
  | n, 0 =>
      match step node inputs n with
      | .ok v => (.ok node.id v, [.invoke node.id n])
      | r => (.err (stepErrMsg r), [.invoke node.id n])
  | n, f + 1 =>
      match step node inputs n with
      | .ok v => (.ok node.id v, [.invoke node.id n])
      | _ =>
          let p := retryGo step node inputs (n + 1) f
          (p.1, .invoke node.id n :: .sleep node.id (backoffWait n) :: p.2)

/-- Orchestrator._run_node (orchestrator.py lines 57-85): resolve inputs
against the context as seen when the task starts, fail at once (no
invocation, no retry) on an unregistered agent or tool name, otherwise
run the retry loop. The concurrency semaphore wrapping the loop carries
no sequential content and is not represented. -/
def run_node (step : StepFn) (node : NodeSpec) (context : RunContext) :
    NodeOutcome × List Event :=
  let inputs := resolve_inputs node context
  if !AGENT_REGISTRY.contains node.agent.name then
    (.err ("Unknown agent: " ++ node.agent.name), [])
  else
    match node.agent.tools.find? (fun t => !TOOL_REGISTRY.contains t.name) with
    | some t => (.err ("Unknown tool: " ++ t.name), [])
    | none => retryGo step node inputs 1 (node.max_retries - 1)

/-- The mutable locals of Orchestrator.run_graph: the context dict and
the loop variable nid, which Python keeps across iterations and layers
and which is unbound until the first successful completion. -/
structure SchedSt where
  context : RunContext
  lastNid : Option String

/-- The error entry stored by the except branch of run_graph. -/
def errEntry (msg : String) : Value :=
  .vDict [("error", .vStr ("node failed after retries: " ++ msg))]

/-- The as_completed loop of Orchestrator.run_graph (lines 93-99) over
one layer. Every task resolved its inputs against ctx0, the context at
layer start. A successful completion binds nid and stores the result; a
failed completion enters the except branch, which reads nid: unbound
(no success yet in the whole run) raises UnboundLocalError, otherwise
the error entry is stored under the stale nid of the previous success. -/
def procCompletions (step : StepFn) (ctx0 : RunContext) :
    List NodeSpec → SchedSt → Except PyError SchedSt × List Event
  | [], st => (.ok st, [])
  | node :: rest, st =>
      let r := run_node step node ctx0
      match r.1 with
      | .ok nid v =>
          let evts := r.2 ++ [.terminal node.id true]
          let p := procCompletions step ctx0 rest
            ⟨dictSet st.context nid v, some nid⟩
          (p.1, evts ++ p.2)
      | .err msg =>
          let evts := r.2 ++ [.terminal node.id false]
          match st.lastNid with
          | none => (.error (.unboundLocalError "nid"), evts)
          | some m =>
              let p := procCompletions step ctx0 rest
                ⟨dictSet st.context m (errEntry msg), st.lastNid⟩
              (p.1, evts ++ p.2)

/-- g.nodes[n]["node"]: KeyError when n was only created implicitly by an
edge and carries no node attribute. -/
def lookupAttr (g : PyDiGraph) (n : String) : Except PyError NodeSpec :=
  match g.attr.lookup n with
  | some nd => .ok nd
  | none => .error (.keyError "node")

/-- The task list comprehension of run_graph line 92: the attribute
lookups happen eagerly, left to right, while building the list, so a
missing attribute raises before any task of the layer is awaited. -/
def layerSpecs (g : PyDiGraph) : List String → Except PyError (List NodeSpec)
  | [] => .ok []
  | n :: rest =>
      match lookupAttr g n with
      | .error e => .error e
      | .ok nd =>
          match layerSpecs g rest with
          | .error e => .error e
          | .ok nds => .ok (nd :: nds)

/-- The layer loop of Orchestrator.run_graph (lines 91-99): layers run
strictly in order; the next layer's tasks are created only after every
completion of the current layer was awaited. -/
def procLayers (step : StepFn) (g : PyDiGraph) :
    List (List String) → SchedSt → Except PyError RunContext × List Event
  | [], st => (.ok st.context, [])
  | layer :: ls, st =>
      match layerSpecs g layer with
      | .error e => (.error e, [])
      | .ok nodes =>
          match procCompletions step st.context nodes st with
          | (.error e, evts) => (.error e, evts)
          | (.ok st2, evts) =>
              let p := procLayers step g ls st2
              (p.1, evts ++ p.2)

/-- Orchestrator.run_graph (orchestrator.py lines 87-101): validate and
build the graph (aborting before any execution), then run the layers of
nx.topological_generations, returning the accumulated context. The event
list records every step invocation, backoff sleep and terminal state in
order. -/
def run_graph (step : StepFn) (spec : GraphSpec) :
    Except PyError RunContext × List Event :=
  match build_graph spec with
  | .error e => (.error e, [])
  | .ok g => procLayers step g (topological_generations g) ⟨[], none⟩

/-! Concrete specs and step behaviours for the counterexamples and
witnesses below. -/

/-- The result EchoAgent.run returns (agents.py lines 28-34). -/
def echoAgentRes (node : NodeSpec) (inputs : List (String × Value)) : Value :=
  .vDict [("echo", .vDict inputs), ("params", .vDict node.agent.params)]

/-- Step behaviour of a run in which every node uses the echo agent and
every invocation succeeds immediately. -/
def stepEcho : StepFn := fun node inputs _ => .ok (echoAgentRes node inputs)

/-- A node bound to the registered echo agent, with no inputs. -/
def nodeA : NodeSpec := { id := "A", agent := ⟨"echo", [], []⟩, inputs := [] }

/-- A node bound to the registered sum agent but invoked with an input
key its run method does not accept, so every invocation raises TypeError
before the agent's own try block can catch it (agents.py line 39). -/
def nodeBfail : NodeSpec :=
  { id := "B", agent := ⟨"sum", [], []⟩, inputs := [("bogus", .vStr "1")] }

/-- A node naming an agent absent from AGENT_REGISTRY. -/
def nodeW : NodeSpec := { id := "W", agent := ⟨"nope", [], []⟩, inputs := [] }

/-- A node naming a registered agent but an unregistered tool. -/
def nodeT : NodeSpec :=
  { id := "T", agent := ⟨"echo", [], [⟨"badtool", []⟩]⟩, inputs := [] }

/-- Step behaviour in which node B's step raises msg on every attempt and
every other node is a succeeding echo step. -/
def stepBfails (msg : String) : StepFn := fun node inputs _ =>
  if node.id = "B" then .exn msg else .ok (echoAgentRes node inputs)

/-- Single node whose step always raises. -/
def c1spec : GraphSpec := ⟨[nodeBfail], []⟩

/-- One node A plus a dangling edge to the nonexistent id B. -/
def c2spec : GraphSpec := ⟨[nodeA], [⟨"A", "B"⟩]⟩

/-- Two independent nodes in one layer: A succeeds, B always fails, with
max_retries = 2. -/
def c4spec : GraphSpec := ⟨[nodeA, nodeBfail], []⟩

/-- Single node naming an unknown agent. -/
def c6spec : GraphSpec := ⟨[nodeW], []⟩

/-- Two nodes with edges A to B and B to A: a directed cycle. -/
def cycspec : GraphSpec :=
  ⟨[nodeA, { nodeA with id := "B" }], [⟨"A", "B"⟩, ⟨"B", "A"⟩]⟩

/-- Two echo nodes with an edge from A to B: two singleton layers. -/
def happyspec : GraphSpec := ⟨[nodeA, { nodeA with id := "B" }], [⟨"A", "B"⟩]⟩

/-- The pairs (e.source, e.target) of a spec's edge list. -/
def edgePairs (spec : GraphSpec) : List (String × String) :=
  spec.edges.map (fun e => (e.source, e.target))

/-- A directed cycle among the pairs es: a nonempty node list each of
whose consecutive pairs is an edge, closed by an edge from the last node
back to the first. -/
def isCycleList (es : List (String × String)) : List String → Prop
  | [] => False
  | v :: rest =>
      List.Chain (fun a b => (a, b) ∈ es) v rest ∧
        ((v :: rest).getLast (List.cons_ne_nil v rest), v) ∈ es

/-- A string all of whose characters are in the id/key charset of
REF_RE, and which is nonempty (the + quantifier). -/
def validId (s : String) : Prop :=
  s.data ≠ [] ∧ ∀ c ∈ s.data, idChar c = true

/-- A string containing no dollar character, so that no reference match
can begin inside it. -/
def noDollar (s : String) : Prop := ∀ c ∈ s.data, c ≠ '$'

instance (s : String) : Decidable (validId s) := by
  unfold validId
  infer_instance

instance (s : String) : Decidable (noDollar s) := by
  unfold noDollar
  infer_instance

/-- The literal text of one reference placeholder. -/
def refString (nid key : String) : String :=
  "$\x7b" ++ nid ++ "." ++ key ++ "\x7d"

/-- The event trace of a retry sequence beginning at attempt n with k
retries: each failed attempt m sleeps backoffWait m before attempt m+1
starts. -/
def backoffTrace (nid : String) (n k : Nat) : List Event :=
  Event.invoke nid n ::
    ((List.range' n k).map
      (fun m => [Event.sleep nid (backoffWait m), Event.invoke nid (m + 1)])).flatten

/-- Every edge of the built graph has both endpoints among its nodes. -/
def edgesWf (g : PyDiGraph) : Prop :=
  ∀ e ∈ g.edges, e.1 ∈ g.nodeOrder ∧ e.2 ∈ g.nodeOrder

/-- The node id carried by an event. -/
def eventNid : Event → String
  | .invoke n _ => n
  | .sleep n _ => n
  | .terminal n _ => n

/-- The node-attribute map binds every key to the NodeSpec whose id is
that key (true of the graph _build_graph assembles, since add_node binds
the attribute of n.id to n). -/
def attrWf (g : PyDiGraph) : Prop :=
  ∀ (k : String) (nd : NodeSpec), g.attr.lookup k = some nd → nd.id = k


/-! Lemmas about the reference resolver. -/

theorem data_append (a b : String) : (a ++ b).data = a.data ++ b.data := rfl

theorem takeWhileId_snd_length (l : List Char) :
    (takeWhileId l).2.length ≤ l.length := by
  induction l with
  | nil => simp [takeWhileId]
  | cons c cs ih =>
    simp only [takeWhileId]
    by_cases h : idChar c = true
    · simp [h]; omega
    · simp [h]

theorem takeWhileId_app (l r : List Char) (hl : ∀ c ∈ l, idChar c = true)
    (hr : ∀ c cs, r = c :: cs → idChar c = false) :
    takeWhileId (l ++ r) = (l, r) := by
  induction l with
  | nil =>
    cases r with
    | nil => rfl
    | cons c cs => simp [takeWhileId, hr c cs rfl]
  | cons c cs ih =>
    have hc : idChar c = true := hl c (by simp)
    have ih2 := ih (fun x hx => hl x (by simp [hx]))
    simp only [List.cons_append, takeWhileId, hc, if_true, List.append_eq, ih2]

theorem tryRef_ref (nid key : String) (suf : List Char)
    (hn : validId nid) (hk : validId key) :
    tryRef ('$' :: lbrace :: (nid.data ++ ('.' :: (key.data ++ (rbrace :: suf))))) =
      some (nid, key, suf) := by
  obtain ⟨hn0, hn1⟩ := hn
  obtain ⟨hk0, hk1⟩ := hk
  simp only [tryRef]
  rw [takeWhileId_app nid.data ('.' :: (key.data ++ (rbrace :: suf))) hn1
    (by intro c cs h; injection h with h1 h2; rw [← h1]; decide)]
  simp only [List.isEmpty_iff, hn0, if_false, if_pos rfl]
  rw [takeWhileId_app key.data (rbrace :: suf) hk1
    (by intro c cs h; injection h with h1 h2; rw [← h1]; decide)]
  simp [List.isEmpty_iff, hk0]

theorem tryRef_none_of_ne_dollar (c : Char) (rest : List Char) (h : c ≠ '$') :
    tryRef (c :: rest) = none := by
  cases rest with
  | nil => rfl
  | cons c2 r => simp [tryRef, h]

theorem tryRef_length (l : List Char) (nid key : String) (r : List Char)
    (h : tryRef l = some (nid, key, r)) : r.length < l.length := by
  match l with
  | [] => simp [tryRef] at h
  | [c] => simp [tryRef] at h
  | c0 :: c1 :: rest =>
    have l2 := takeWhileId_snd_length rest
    simp only [tryRef] at h
    split at h
    · split at h
      · simp at h
      · split at h
        · rename_i c2 r2 h2
          have l3 := takeWhileId_snd_length r2
          rw [h2] at l2
          split at h
          · split at h
            · simp at h
            · split at h
              · rename_i c3 r4 h3
                rw [h3] at l3
                split at h
                · simp only [Option.some.injEq, Prod.mk.injEq] at h
                  obtain ⟨-, -, hr⟩ := h
                  subst hr
                  simp only [List.length_cons] at l2 l3 ⊢
                  omega
                · simp at h
              · simp at h
          · simp at h
        · simp at h
    · simp at h

theorem subRefs_fuel (ctx : RunContext) :
    ∀ (f1 f2 : Nat) (l : List Char), l.length ≤ f1 → l.length ≤ f2 →
      subRefs ctx f1 l = subRefs ctx f2 l := by
  intro f1
  induction f1 with
  | zero =>
    intro f2 l h1 _
    have hl : l = [] := List.length_eq_zero.mp (Nat.le_zero.mp h1)
    subst hl
    cases f2 <;> rfl
  | succ f ih =>
    intro f2 l h1 h2
    cases l with
    | nil => cases f2 <;> rfl
    | cons c rest =>
      cases f2 with
      | zero => simp at h2
      | succ f2' =>
        simp only [subRefs]
        cases htr : tryRef (c :: rest) with
        | some v =>
          obtain ⟨nid, key, rest2⟩ := v
          have hlen := tryRef_length _ _ _ _ htr
          simp only [List.length_cons] at hlen h1 h2
          dsimp only
          rw [ih f2' rest2 (by omega) (by omega)]
        | none =>
          simp only [List.length_cons] at h1 h2
          dsimp only
          rw [ih f2' rest (by omega) (by omega)]

theorem subRefs_no_dollar (ctx : RunContext) :
    ∀ (pre l : List Char) (f : Nat), (pre ++ l).length ≤ f →
      (∀ c ∈ pre, c ≠ '$') →
      subRefs ctx f (pre ++ l) = pre ++ subRefs ctx f l := by
  intro pre
  induction pre with
  | nil => intro l f _ _; simp
  | cons p pre' ih =>
    intro l f hf hd
    have hp : p ≠ '$' := hd p (by simp)
    cases f with
    | zero => simp at hf
    | succ f' =>
      simp only [List.length_cons, List.length_append, List.cons_append] at hf
      simp only [List.cons_append, subRefs, tryRef_none_of_ne_dollar p _ hp,
        List.append_eq]
      rw [ih l f' (by simp; omega) (fun c hc => hd c (by simp [hc]))]
      rw [subRefs_fuel ctx f' (f' + 1) l (by omega) (by omega)]

theorem subRefs_ref (ctx : RunContext) (nid key : String) (suf : List Char)
    (hn : validId nid) (hk : validId key) (f : Nat)
    (hf : ('$' :: lbrace :: (nid.data ++ ('.' :: (key.data ++ (rbrace :: suf))))).length ≤ f) :
    subRefs ctx f ('$' :: lbrace :: (nid.data ++ ('.' :: (key.data ++ (rbrace :: suf))))) =
      (refLookup ctx nid key).data ++ subRefs ctx f suf := by
  simp only [List.length_cons, List.length_append] at hf
  cases f with
  | zero => omega
  | succ f' =>
    simp only [subRefs, tryRef_ref nid key suf hn hk]
    rw [subRefs_fuel ctx f' (f' + 1) suf (by omega) (by omega)]


theorem replaceRefs_data (ctx : RunContext) (s : String) :
    (replaceRefs ctx s).data = subRefs ctx s.data.length s.data := rfl

theorem refString_data (nid key : String) : (refString nid key).data =
    '$' :: lbrace :: (nid.data ++ ('.' :: (key.data ++ [rbrace]))) := by
  simp [refString, data_append, lbrace, rbrace]

theorem replaceRefs_split (ctx : RunContext) (pre suf nid key : String)
    (hpre : noDollar pre) (hn : validId nid) (hk : validId key) :
    replaceRefs ctx (pre ++ refString nid key ++ suf) =
      pre ++ refLookup ctx nid key ++ replaceRefs ctx suf := by
  apply String.ext
  simp only [data_append, replaceRefs_data, refString_data]
  simp only [List.append_assoc, List.cons_append, List.singleton_append,
    List.nil_append]
  rw [subRefs_no_dollar ctx pre.data _ _ (le_refl _) hpre]
  congr 1
  rw [subRefs_ref ctx nid key suf.data hn hk _
    (by simp [List.length_append])]
  congr 1
  apply subRefs_fuel
  · simp only [List.length_append, List.length_cons]
    omega
  · exact le_refl _

/-! Lemmas about graph building and cycle detection. -/

theorem chain_pred {R : String → String → Prop} :
    ∀ (prev : String) (rest : List String), List.Chain R prev rest →
      ∀ x ∈ rest, ∃ p ∈ prev :: rest, R p x := by
  intro prev rest
  induction rest generalizing prev with
  | nil => intro _ x hx; simp at hx
  | cons b bs ih =>
    intro hch x hx
    rw [List.chain_cons] at hch
    rcases List.mem_cons.mp hx with hx | hx
    · exact ⟨prev, by simp, hx ▸ hch.1⟩
    · obtain ⟨p, hp, hr⟩ := ih b hch.2 x hx
      exact ⟨p, by simp at hp ⊢; tauto, hr⟩

theorem cycle_in_edge (es : List (String × String)) (c : List String)
    (hc : isCycleList es c) : ∀ x ∈ c, ∃ p ∈ c, (p, x) ∈ es := by
  cases c with
  | nil => simp [isCycleList] at hc
  | cons v rest =>
    obtain ⟨hch, hcl⟩ := hc
    intro x hx
    rcases List.mem_cons.mp hx with hx | hx
    · subst hx
      exact ⟨(x :: rest).getLast (List.cons_ne_nil x rest),
        List.getLast_mem _, hcl⟩
    · exact chain_pred v rest hch x hx

theorem kahn_leftover (edges : List (String × String)) (C : List String)
    (hC : C ≠ []) (hin : ∀ x ∈ C, ∃ p ∈ C, (p, x) ∈ edges) :
    ∀ (fuel : Nat) (remaining : List String), (∀ x ∈ C, x ∈ remaining) →
      (kahnAux edges fuel remaining).2 ≠ [] := by
  have hrne : ∀ (remaining : List String), (∀ x ∈ C, x ∈ remaining) →
      remaining ≠ [] := by
    intro remaining hsub hnil
    obtain ⟨x, hx⟩ := List.exists_mem_of_ne_nil C hC
    exact absurd (hsub x hx) (by simp [hnil])
  intro fuel
  induction fuel with
  | zero =>
    intro remaining hsub
    simpa [kahnAux] using hrne remaining hsub
  | succ f ih =>
    intro remaining hsub
    simp only [kahnAux]
    by_cases hemp :
        (remaining.filter (fun v => !hasIncoming edges remaining v)).isEmpty
    · simpa [hemp] using hrne remaining hsub
    · simp only [hemp, Bool.false_eq_true, if_false]
      apply ih
      intro x hx
      have hxr : x ∈ remaining := hsub x hx
      have hxin : hasIncoming edges remaining x = true := by
        obtain ⟨p, hp, hedge⟩ := hin x hx
        unfold hasIncoming
        refine List.any_eq_true.mpr ⟨(p, x), hedge, ?_⟩
        simp [hsub p hp]
      refine List.mem_filter.mpr ⟨hxr, ?_⟩
      simp [hxin]

theorem foldl_addNode_edges : ∀ (l : List NodeSpec) (g : PyDiGraph),
    (l.foldl (fun g n => addNode g n) g).edges = g.edges := by
  intro l
  induction l with
  | nil => intro g; rfl
  | cons n ns ih => intro g; rw [List.foldl_cons, ih]; rfl

theorem addEdge_self_mem (g : PyDiGraph) (s t : String) :
    (s, t) ∈ (addEdge g s t).edges := by
  by_cases h : (s, t) ∈ g.edges <;> simp [addEdge, h]

theorem addEdge_edges_mono (g : PyDiGraph) (s t : String) (e : String × String)
    (he : e ∈ g.edges) : e ∈ (addEdge g s t).edges := by
  by_cases h : (s, t) ∈ g.edges <;> simp [addEdge, h, he]

theorem foldl_addEdge_mono : ∀ (l : List EdgeSpec) (g : PyDiGraph)
    (e : String × String), e ∈ g.edges →
    e ∈ (l.foldl (fun g e => addEdge g e.source e.target) g).edges := by
  intro l
  induction l with
  | nil => intro g e he; exact he
  | cons x xs ih => intro g e he; exact ih _ e (addEdge_edges_mono _ _ _ e he)

theorem mem_foldl_addEdge : ∀ (l : List EdgeSpec) (g : PyDiGraph)
    (e : EdgeSpec), e ∈ l →
    (e.source, e.target) ∈ (l.foldl (fun g e => addEdge g e.source e.target) g).edges := by
  intro l
  induction l with
  | nil => intro g e he; simp at he
  | cons x xs ih =>
    intro g e he
    rcases List.mem_cons.mp he with he | he
    · subst he
      exact foldl_addEdge_mono xs _ _ (addEdge_self_mem g e.source e.target)
    · exact ih _ e he

theorem edge_mem_buildRaw (spec : GraphSpec) (e : EdgeSpec)
    (he : e ∈ spec.edges) : (e.source, e.target) ∈ (buildRaw spec).edges :=
  mem_foldl_addEdge spec.edges _ e he

theorem nodeOrder_mono_addEdge (g : PyDiGraph) (s t x : String)
    (hx : x ∈ g.nodeOrder) : x ∈ (addEdge g s t).nodeOrder := by
  by_cases h1 : s ∈ g.nodeOrder <;> by_cases h2 : t ∈ g.nodeOrder <;>
    by_cases h3 : t = s <;> simp [addEdge, h1, h2, h3, hx]

theorem addEdge_endpoints (g : PyDiGraph) (s t : String) :
    s ∈ (addEdge g s t).nodeOrder ∧ t ∈ (addEdge g s t).nodeOrder := by
  by_cases h1 : s ∈ g.nodeOrder <;> by_cases h2 : t ∈ g.nodeOrder <;>
    by_cases h3 : t = s <;> simp [addEdge, h1, h2, h3]

theorem edgesWf_addNode (g : PyDiGraph) (n : NodeSpec) (h : edgesWf g) :
    edgesWf (addNode g n) := by
  intro e he
  have he2 : e ∈ g.edges := he
  obtain ⟨h1, h2⟩ := h e he2
  by_cases hc : n.id ∈ g.nodeOrder <;> simp [addNode, hc, h1, h2]

theorem edgesWf_addEdge (g : PyDiGraph) (s t : String) (h : edgesWf g) :
    edgesWf (addEdge g s t) := by
  intro e he
  have hmem : e ∈ g.edges ∨ e = (s, t) := by
    by_cases hc : (s, t) ∈ g.edges
    · left
      simpa [addEdge, hc] using he
    · have h2 := he
      simp [addEdge, hc] at h2
      tauto
  rcases hmem with hm | hm
  · obtain ⟨h1, h2⟩ := h e hm
    exact ⟨nodeOrder_mono_addEdge g s t _ h1, nodeOrder_mono_addEdge g s t _ h2⟩
  · subst hm
    exact addEdge_endpoints g s t

theorem edgesWf_foldl_addNode : ∀ (l : List NodeSpec) (g : PyDiGraph),
    edgesWf g → edgesWf (l.foldl (fun g n => addNode g n) g) := by
  intro l
  induction l with
  | nil => intro g h; exact h
  | cons n ns ih => intro g h; exact ih _ (edgesWf_addNode g n h)

theorem edgesWf_foldl_addEdge : ∀ (l : List EdgeSpec) (g : PyDiGraph),
    edgesWf g → edgesWf (l.foldl (fun g e => addEdge g e.source e.target) g) := by
  intro l
  induction l with
  | nil => intro g h; exact h
  | cons e es ih => intro g h; exact ih _ (edgesWf_addEdge g e.source e.target h)

theorem edgesWf_buildRaw (spec : GraphSpec) : edgesWf (buildRaw spec) := by
  unfold buildRaw
  exact edgesWf_foldl_addEdge spec.edges _
    (edgesWf_foldl_addNode spec.nodes _ (by intro e he; simp at he))

/-! Lemmas about layering, scheduling and the event trace. -/

theorem kahnAux_layers_sub (edges : List (String × String)) :
    ∀ (fuel : Nat) (remaining : List String) (l : List String),
      l ∈ (kahnAux edges fuel remaining).1 → ∀ x ∈ l, x ∈ remaining := by
  intro fuel
  induction fuel with
  | zero => intro remaining l hl; simp [kahnAux] at hl
  | succ f ih =>
    intro remaining l hl x hx
    simp only [kahnAux] at hl
    by_cases hemp :
        (remaining.filter (fun v => !hasIncoming edges remaining v)).isEmpty
    · simp [hemp] at hl
    · simp only [hemp, Bool.false_eq_true, if_false, List.mem_cons] at hl
      rcases hl with hl | hl
      · subst hl
        exact List.mem_of_mem_filter hx
      · exact List.mem_of_mem_filter (ih _ _ hl x hx)

theorem kahnAux_disjoint (edges : List (String × String)) :
    ∀ (fuel : Nat) (remaining : List String),
      List.Pairwise List.Disjoint (kahnAux edges fuel remaining).1 := by
  intro fuel
  induction fuel with
  | zero => intro remaining; simp [kahnAux]
  | succ f ih =>
    intro remaining
    simp only [kahnAux]
    by_cases hemp :
        (remaining.filter (fun v => !hasIncoming edges remaining v)).isEmpty
    · simp [hemp]
    · simp only [hemp, Bool.false_eq_true, if_false]
      refine List.Pairwise.cons ?_ (ih _)
      intro l2 hl2 a ha ha2
      have has := kahnAux_layers_sub edges f _ l2 hl2 a ha2
      have hp := List.of_mem_filter has
      simp at hp
      have ha3 := List.mem_filter.mp ha
      simp only [Bool.not_eq_true'] at ha3
      rcases hp with hp | hp
      · exact hp ha3.1
      · exact absurd hp (by simp [ha3.2])

theorem retryGo_nid (step : StepFn) (node : NodeSpec)
    (inputs : List (String × Value)) :
    ∀ (fuel n : Nat), ∀ e ∈ (retryGo step node inputs n fuel).2,
      eventNid e = node.id := by
  intro fuel
  induction fuel with
  | zero =>
    intro n e he
    cases hs : step node inputs n with
    | ok v => simp [retryGo, hs] at he; subst he; rfl
    | exn m => simp [retryGo, hs] at he; subst he; rfl
    | timeout => simp [retryGo, hs] at he; subst he; rfl
  | succ f ih =>
    intro n e he
    cases hs : step node inputs n with
    | ok v => simp [retryGo, hs] at he; subst he; rfl
    | exn m =>
      simp [retryGo, hs] at he
      rcases he with he | he | he
      · subst he; rfl
      · subst he; rfl
      · exact ih (n + 1) e he
    | timeout =>
      simp [retryGo, hs] at he
      rcases he with he | he | he
      · subst he; rfl
      · subst he; rfl
      · exact ih (n + 1) e he

theorem run_node_nid (step : StepFn) (node : NodeSpec) (ctx : RunContext) :
    ∀ e ∈ (run_node step node ctx).2, eventNid e = node.id := by
  intro e he
  unfold run_node at he
  by_cases ha : AGENT_REGISTRY.contains node.agent.name
  · simp only [ha, Bool.not_true, Bool.false_eq_true, if_false] at he
    cases hf : node.agent.tools.find? (fun t => !TOOL_REGISTRY.contains t.name) with
    | some t => rw [hf] at he; simp at he
    | none =>
      rw [hf] at he
      exact retryGo_nid step node _ _ 1 e he
  · simp only [ha] at he
    simp at he

theorem dictSetNode_lookup (k : String) (v : NodeSpec) :
    ∀ (m : List (String × NodeSpec)) (q : String),
      (addNode.dictSetNode m k v).lookup q =
        if q = k then some v else m.lookup q := by
  intro m
  induction m with
  | nil =>
    intro q
    by_cases hq : q = k
    · simp [addNode.dictSetNode, List.lookup, hq]
    · have hb : (q == k) = false := beq_eq_false_iff_ne.mpr hq
      simp [addNode.dictSetNode, List.lookup, hq, hb]
  | cons p rest ih =>
    intro q
    by_cases hp : p.1 = k
    · by_cases hq : q = k
      · simp [addNode.dictSetNode, hp, List.lookup, hq]
      · have hb : (q == k) = false := beq_eq_false_iff_ne.mpr hq
        have hb2 : (q == p.1) = false :=
          beq_eq_false_iff_ne.mpr (by rw [hp]; exact hq)
        simp [addNode.dictSetNode, hp, List.lookup, hq, hb, hb2]
    · by_cases hq : q = p.1
      · have hb2 : (q == p.1) = true := beq_iff_eq.mpr hq
        have hqk : ¬q = k := by rw [hq]; exact hp
        have hb : (q == k) = false := beq_eq_false_iff_ne.mpr hqk
        simp [addNode.dictSetNode, hp, List.lookup, hb2, hb, hqk]
      · have hb2 : (q == p.1) = false := beq_eq_false_iff_ne.mpr hq
        by_cases hqk : q = k
        · have hb3 : (k == p.1) = false :=
            beq_eq_false_iff_ne.mpr (by rw [← hqk]; exact hq)
          simp [addNode.dictSetNode, hp, List.lookup, hb2, hb3, hqk, ih]
        · have hb : (q == k) = false := beq_eq_false_iff_ne.mpr hqk
          simp [addNode.dictSetNode, hp, List.lookup, hb2, hb, hqk, ih]

theorem attrWf_addNode (g : PyDiGraph) (n : NodeSpec) (h : attrWf g) :
    attrWf (addNode g n) := by
  intro k nd hl
  have hl2 : (addNode.dictSetNode g.attr n.id n).lookup k = some nd := hl
  rw [dictSetNode_lookup] at hl2
  by_cases hk : k = n.id
  · rw [if_pos hk] at hl2
    injection hl2 with hnd
    rw [← hnd, hk]
  · rw [if_neg hk] at hl2
    exact h k nd hl2

theorem attrWf_addEdge (g : PyDiGraph) (s t : String) (h : attrWf g) :
    attrWf (addEdge g s t) := fun k nd hl => h k nd hl

theorem attrWf_buildRaw (spec : GraphSpec) : attrWf (buildRaw spec) := by
  unfold buildRaw
  have h1 : ∀ (l : List NodeSpec) (g : PyDiGraph), attrWf g →
      attrWf (l.foldl (fun g n => addNode g n) g) := by
    intro l
    induction l with
    | nil => intro g h; exact h
    | cons n ns ih => intro g h; exact ih _ (attrWf_addNode g n h)
  have h2 : ∀ (l : List EdgeSpec) (g : PyDiGraph), attrWf g →
      attrWf (l.foldl (fun g e => addEdge g e.source e.target) g) := by
    intro l
    induction l with
    | nil => intro g h; exact h
    | cons e es ih => intro g h; exact ih _ (attrWf_addEdge g e.source e.target h)
  exact h2 spec.edges _ (h1 spec.nodes _ (by intro k nd hl; simp [List.lookup] at hl))

theorem lookupAttr_id (g : PyDiGraph) (hg : attrWf g) (n : String)
    (nd : NodeSpec) (h : lookupAttr g n = .ok nd) : nd.id = n := by
  unfold lookupAttr at h
  cases hl : g.attr.lookup n with
  | none => rw [hl] at h; simp at h
  | some nd2 =>
    rw [hl] at h
    injection h with h2
    rw [← h2]
    exact hg n nd2 hl

theorem layerSpecs_ids (g : PyDiGraph) (hg : attrWf g) :
    ∀ (layer : List String) (nds : List NodeSpec),
      layerSpecs g layer = .ok nds → nds.map NodeSpec.id = layer := by
  intro layer
  induction layer with
  | nil =>
    intro nds h
    simp only [layerSpecs] at h
    injection h with h2
    rw [← h2]
    rfl
  | cons n rest ih =>
    intro nds h
    simp only [layerSpecs] at h
    cases hl : lookupAttr g n with
    | error e => rw [hl] at h; simp at h
    | ok nd =>
      rw [hl] at h
      cases hr : layerSpecs g rest with
      | error e => rw [hr] at h; simp at h
      | ok nds2 =>
        rw [hr] at h
        injection h with h2
        rw [← h2]
        simp [List.map_cons, ih nds2 hr, lookupAttr_id g hg n nd hl]

theorem procCompletions_nids (step : StepFn) (ctx0 : RunContext) :
    ∀ (nds : List NodeSpec) (st : SchedSt),
      ∀ e ∈ (procCompletions step ctx0 nds st).2,
        eventNid e ∈ nds.map NodeSpec.id := by
  intro nds
  induction nds with
  | nil => intro st e he; simp [procCompletions] at he
  | cons node rest ih =>
    intro st e he
    simp only [procCompletions] at he
    cases ho : (run_node step node ctx0).1 with
    | ok nid v =>
      rw [ho] at he
      simp only [List.mem_append] at he
      rcases he with (he | he) | he
      · simp [run_node_nid step node ctx0 e he]
      · simp only [List.mem_singleton] at he
        subst he
        simp [eventNid]
      · simp [ih _ e he]
    | err msg =>
      rw [ho] at he
      cases hl : st.lastNid with
      | none =>
        rw [hl] at he
        simp only [List.mem_append] at he
        rcases he with he | he
        · simp [run_node_nid step node ctx0 e he]
        · simp only [List.mem_singleton] at he
          subst he
          simp [eventNid]
      | some m =>
        rw [hl] at he
        simp only [List.mem_append] at he
        rcases he with (he | he) | he
        · simp [run_node_nid step node ctx0 e he]
        · simp only [List.mem_singleton] at he
          subst he
          simp [eventNid]
        · simp [ih _ e he]

theorem procCompletions_ok_terminal (step : StepFn) (ctx0 : RunContext) :
    ∀ (nds : List NodeSpec) (st st2 : SchedSt) (evts : List Event),
      procCompletions step ctx0 nds st = (.ok st2, evts) →
      ∀ nd ∈ nds, ∃ b, Event.terminal nd.id b ∈ evts := by
  intro nds
  induction nds with
  | nil => intro st st2 evts h nd hnd; simp at hnd
  | cons node rest ih =>
    intro st st2 evts h nd hnd
    simp only [procCompletions] at h
    cases ho : (run_node step node ctx0).1 with
    | ok nid v =>
      rw [ho] at h
      have hevts : evts = ((run_node step node ctx0).2 ++ [.terminal node.id true]) ++
          (procCompletions step ctx0 rest ⟨dictSet st.context nid v, some nid⟩).2 := by
        have := congrArg Prod.snd h
        simp at this
        rw [← this]
        simp
      have hres : (procCompletions step ctx0 rest
          ⟨dictSet st.context nid v, some nid⟩).1 = .ok st2 := by
        have := congrArg Prod.fst h
        simp at this
        rw [← this]
      rcases List.mem_cons.mp hnd with hnd | hnd
      · subst hnd
        exact ⟨true, by rw [hevts]; simp⟩
      · obtain ⟨b, hb⟩ := ih ⟨dictSet st.context nid v, some nid⟩ st2 _
          (Prod.ext hres rfl) nd hnd
        exact ⟨b, by rw [hevts]; simp [hb]⟩
    | err msg =>
      rw [ho] at h
      cases hl : st.lastNid with
      | none =>
        rw [hl] at h
        simp at h
      | some m =>
        rw [hl] at h
        have hevts : evts = ((run_node step node ctx0).2 ++ [.terminal node.id false]) ++
            (procCompletions step ctx0 rest ⟨dictSet st.context m (errEntry msg), st.lastNid⟩).2 := by
          have := congrArg Prod.snd h
          simp at this
          rw [← this, hl]
          simp
        have hres : (procCompletions step ctx0 rest
            ⟨dictSet st.context m (errEntry msg), st.lastNid⟩).1 = .ok st2 := by
          have := congrArg Prod.fst h
          simp at this
          rw [← this, hl]
        rcases List.mem_cons.mp hnd with hnd | hnd
        · subst hnd
          exact ⟨false, by rw [hevts]; simp⟩
        · obtain ⟨b, hb⟩ := ih ⟨dictSet st.context m (errEntry msg), st.lastNid⟩ st2 _
            (Prod.ext hres rfl) nd hnd
          exact ⟨b, by rw [hevts]; simp [hb]⟩

theorem mem_getElem_idx {α : Type} (l : List α) (x : α) (h : x ∈ l) :
    ∃ m, m < l.length ∧ l[m]? = some x := by
  obtain ⟨m, hm⟩ := List.get?_of_mem h
  have hm2 : l[m]? = some x := by simpa [← List.get?_eq_getElem?] using hm
  obtain ⟨hlt, -⟩ := List.getElem?_eq_some.mp hm2
  exact ⟨m, hlt, hm2⟩

theorem procLayers_barrier (step : StepFn) (g : PyDiGraph) (hg : attrWf g) :
    ∀ (ls : List (List String)) (st : SchedSt),
      List.Pairwise List.Disjoint ls →
      ∀ (i j : Nat) (li lj : List String) (u v : String),
        ls[i]? = some li → ls[j]? = some lj → i < j → u ∈ li → v ∈ lj →
        ∀ (n a : Nat), (procLayers step g ls st).2[n]? = some (.invoke v a) →
        ∃ (m : Nat) (b : Bool), m < n ∧
          (procLayers step g ls st).2[m]? = some (.terminal u b) := by
  intro ls
  induction ls with
  | nil =>
    intro st _ i j li lj u v hi hj hij hu hv n a hn
    simp at hi
  | cons l ls2 ih =>
    intro st hdisj i j li lj u v hi hj hij hu hv n a hn
    obtain ⟨j2, rfl⟩ : ∃ j2, j = j2 + 1 := ⟨j - 1, by omega⟩
    have hj2 : ls2[j2]? = some lj := by simpa using hj
    have hlj_mem : lj ∈ ls2 := List.getElem?_mem hj2
    have hvl : v ∉ l := fun hvl =>
      (List.pairwise_cons.mp hdisj).1 lj hlj_mem hvl hv
    cases hls : layerSpecs g l with
    | error e =>
      simp only [procLayers, hls] at hn
      simp at hn
    | ok nodes =>
      have hids : nodes.map NodeSpec.id = l := layerSpecs_ids g hg l nodes hls
      rcases hpc : procCompletions step st.context nodes st with ⟨res, evts⟩
      have hsnd : (procCompletions step st.context nodes st).2 = evts := by
        rw [hpc]
      have hinv_origin : ∀ (n2 a2 : Nat), evts[n2]? = some (.invoke v a2) → False := by
        intro n2 a2 hn2
        have hmem : Event.invoke v a2 ∈ evts := List.getElem?_mem hn2
        rw [← hsnd] at hmem
        have := procCompletions_nids step st.context nodes st _ hmem
        rw [hids] at this
        exact hvl (by simpa [eventNid] using this)
      cases res with
      | error e =>
        simp only [procLayers, hls, hpc] at hn
        exact absurd hn (by intro h; exact hinv_origin n a h)
      | ok st2 =>
        simp only [procLayers, hls, hpc] at hn
        -- hn : (evts ++ (procLayers step g ls2 st2).2)[n]? = some (.invoke v a)
        by_cases hlt : n < evts.length
        · rw [List.getElem?_append_left hlt] at hn
          exact absurd hn (by intro h; exact hinv_origin n a h)
        · have hge : evts.length ≤ n := le_of_not_lt hlt
          rw [List.getElem?_append_right hge] at hn
          cases i with
          | zero =>
            have hli : li = l := by
              have : some l = some li := by simpa using hi
              injection this with h2
              exact h2.symm
            subst hli
            have hul : u ∈ nodes.map NodeSpec.id := by rw [hids]; exact hu
            obtain ⟨nd, hnd, hndid⟩ := List.mem_map.mp hul
            obtain ⟨b, hb⟩ := procCompletions_ok_terminal step st.context nodes
              st st2 evts hpc nd hnd
            rw [hndid] at hb
            obtain ⟨m, hmlt, hm⟩ := mem_getElem_idx evts _ hb
            refine ⟨m, b, by omega, ?_⟩
            simp only [procLayers, hls, hpc]
            rw [List.getElem?_append_left hmlt]
            exact hm
          | succ i2 =>
            have hi2 : ls2[i2]? = some li := by simpa using hi
            obtain ⟨m2, b, hm2lt, hm2⟩ := ih st2 (List.pairwise_cons.mp hdisj).2
              i2 j2 li lj u v hi2 hj2 (by omega) hu hv (n - evts.length) a hn
            refine ⟨evts.length + m2, b, by omega, ?_⟩
            simp only [procLayers, hls, hpc]
            rw [List.getElem?_append_right (by omega)]
            have : evts.length + m2 - evts.length = m2 := by omega
            rw [this]
            exact hm2

theorem build_graph_ok (spec : GraphSpec) (g : PyDiGraph)
    (h : build_graph spec = .ok g) : g = buildRaw spec := by
  unfold build_graph at h
  by_cases hd : is_dag (buildRaw spec) = true
  · rw [if_pos hd] at h
    injection h with h2
    exact h2.symm
  · rw [if_neg hd] at h
    simp at h

theorem run_graph_layers (step : StepFn) (spec : GraphSpec) (g : PyDiGraph)
    (h : build_graph spec = .ok g) :
    run_graph step spec =
      procLayers step g (topological_generations g) ⟨[], none⟩ := by
  unfold run_graph
  rw [h]

theorem retryGo_events (step : StepFn) (node : NodeSpec)
    (inputs : List (String × Value)) :
    ∀ (fuel n : Nat), ∃ k,
      (retryGo step node inputs n fuel).2 = backoffTrace node.id n k := by
  intro fuel
  induction fuel with
  | zero =>
    intro n
    refine ⟨0, ?_⟩
    cases hs : step node inputs n with
    | ok v => simp [retryGo, hs, backoffTrace]
    | exn m => simp [retryGo, hs, backoffTrace]
    | timeout => simp [retryGo, hs, backoffTrace]
  | succ f ih =>
    intro n
    cases hs : step node inputs n with
    | ok v => exact ⟨0, by simp [retryGo, hs, backoffTrace]⟩
    | exn m =>
      obtain ⟨k, hk⟩ := ih (n + 1)
      refine ⟨k + 1, ?_⟩
      simp only [retryGo, hs, hk, backoffTrace, List.range'_succ, List.map_cons,
        List.flatten_cons]
      rfl
    | timeout =>
      obtain ⟨k, hk⟩ := ih (n + 1)
      refine ⟨k + 1, ?_⟩
      simp only [retryGo, hs, hk, backoffTrace, List.range'_succ, List.map_cons,
        List.flatten_cons]
      rfl

theorem backoffWait_formula (n : Nat) :
    backoffWait n = min ((1 / 2 : ℚ) * 2 ^ (n - 1)) 4 := by
  unfold backoffWait
  have h1 : (1 : ℚ) ≤ 2 ^ (n - 1) := one_le_pow₀ (by norm_num)
  have hx : (1 / 2 : ℚ) ≤ 1 / 2 * 2 ^ (n - 1) := by
    calc (1 / 2 : ℚ) = 1 / 2 * 1 := by norm_num
    _ ≤ 1 / 2 * 2 ^ (n - 1) := by
      apply mul_le_mul_of_nonneg_left h1
      norm_num
  have hm : max (0 : ℚ) (1 / 2) = 1 / 2 := by norm_num
  rw [hm]
  exact max_eq_right (le_min hx (by norm_num))

theorem replaceRefs_single (ctx : RunContext) (nid key : String)
    (hn : validId nid) (hk : validId key) :
    replaceRefs ctx (refString nid key) = refLookup ctx nid key := by
  apply String.ext
  rw [replaceRefs_data, refString_data]
  rw [show (key.data ++ [rbrace] : List Char) = key.data ++ (rbrace :: []) from rfl]
  rw [subRefs_ref ctx nid key [] hn hk _ (le_refl _)]
  simp [subRefs]

/-! The claims. -/

/-- C1: the claim states that for every valid acyclic GraphSpec,
run_graph returns a mapping with exactly one entry per node, failed
nodes included, each failed node's error map stored under its own id.
The code violates this: in the except branch of run_graph the loop
variable nid is unbound when the first completed task failed, so at this
failing input (a single always-raising node) run_graph raises
UnboundLocalError instead of returning any mapping, after invoking the
node's step twice as configured. -/
theorem c1_failed_node_entry (msg : String) :
    run_graph (fun _ _ _ => .exn msg) c1spec =
      (.error (.unboundLocalError "nid"),
       [.invoke "B" 1, .sleep "B" (backoffWait 1), .invoke "B" 2,
        .terminal "B" false]) := rfl

/-- C2, counterexample: the claim states that a GraphSpec with an edge
endpoint naming no node fails validation with a dangling-edge error
before any node executes. In fact _build_graph accepts this spec: the
nonexistent endpoint B is silently added as an attribute-less node. -/
theorem c2_counterexample :
    build_graph c2spec = .ok ⟨["A", "B"], [("A", nodeA)], [("A", "B")]⟩ := rfl

/-- C2, amended: _build_graph performs no dangling-edge validation; its
only failure is the cycle (must-be-a-DAG) ValueError. A dangling edge
instead surfaces at execution time: run_graph raises KeyError when the
layer containing the attribute-less endpoint is launched, after the
nodes of earlier layers have already executed (here A ran to SUCCEEDED
before the KeyError). -/
theorem c2_no_dangling_validation :
    (∀ (spec : GraphSpec) (e : PyError), build_graph spec = .error e →
      e = .valueError "Execution graph must be a DAG") ∧
    run_graph stepEcho c2spec =
      (.error (.keyError "node"), [.invoke "A" 1, .terminal "A" true]) := by
  constructor
  · intro spec e h
    unfold build_graph at h
    by_cases hd : is_dag (buildRaw spec) = true
    · rw [if_pos hd] at h
      simp at h
    · rw [if_neg hd] at h
      injection h with h2
      exact h2.symm
  · rfl

theorem c2_witness :
    build_graph cycspec = .error (.valueError "Execution graph must be a DAG") ∧
    PyError.valueError "Execution graph must be a DAG" =
      .valueError "Execution graph must be a DAG" :=
  ⟨rfl, c2_no_dangling_validation.1 cycspec _ rfl⟩

/-- C3: for every GraphSpec whose edges induce a directed cycle,
run_graph raises the graph-validation ValueError before any node
executes: the result is the error with an empty event trace, so no step
was invoked, no backoff slept, no node reached a terminal state, and no
RunContext entry was written. -/
theorem c3_cycle_aborts (step : StepFn) (spec : GraphSpec) (c : List String)
    (hc : isCycleList (edgePairs spec) c) :
    run_graph step spec =
      (.error (.valueError "Execution graph must be a DAG"), []) := by
  have hne : c ≠ [] := by
    cases c with
    | nil => simp [isCycleList] at hc
    | cons v r => simp
  have hcyc := cycle_in_edge _ c hc
  have hin : ∀ x ∈ c, ∃ p ∈ c, (p, x) ∈ (buildRaw spec).edges := by
    intro x hx
    obtain ⟨p, hp, he⟩ := hcyc x hx
    obtain ⟨e, hesp, heq⟩ := List.mem_map.mp he
    refine ⟨p, hp, ?_⟩
    have hm := edge_mem_buildRaw spec e hesp
    rwa [heq] at hm
  have hsub : ∀ x ∈ c, x ∈ (buildRaw spec).nodeOrder := by
    intro x hx
    obtain ⟨p, hp, he⟩ := hin x hx
    exact (edgesWf_buildRaw spec (p, x) he).2
  have hleft := kahn_leftover (buildRaw spec).edges c hne hin
    (buildRaw spec).nodeOrder.length (buildRaw spec).nodeOrder hsub
  have hdag : is_dag (buildRaw spec) = false := by
    unfold is_dag
    simpa using hleft
  unfold run_graph build_graph
  simp [hdag]

theorem c3_witness :
    isCycleList (edgePairs cycspec) ["A", "B"] ∧
    run_graph stepEcho cycspec =
      (.error (.valueError "Execution graph must be a DAG"), []) := by
  have hc : isCycleList (edgePairs cycspec) ["A", "B"] := by
    constructor
    · simp [edgePairs, cycspec]
    · simp [edgePairs, cycspec]
  exact ⟨hc, c3_cycle_aborts stepEcho cycspec ["A", "B"] hc⟩

/-- C4: the claim states that a node whose step always fails with
max_retries = 2 is invoked at most 2 times (true: the trace has exactly
two invoke events for B), its final RunContext entry is an error map,
and same-layer siblings are unaffected. The code violates the last two
parts: the except branch of run_graph stores the error under the stale
nid of the previously completed sibling A, so A's successful result is
overwritten by B's error map and B has no entry at all. -/
theorem c4_failed_sibling_overwrite (msg : String) :
    run_graph (stepBfails msg) c4spec =
      (.ok [("A", .vDict [("error",
          .vStr ("node failed after retries: " ++ msg))])],
       [.invoke "A" 1, .terminal "A" true, .invoke "B" 1,
        .sleep "B" (backoffWait 1), .invoke "B" 2, .terminal "B" false]) := rfl

/-- C6: the claim states that a node naming an unregistered agent or
tool fails immediately without consuming retries or invoking the step
(true: the unknown-name ValueError is raised before the retry loop, and
the event trace of run_node is empty), and that the failure is recorded
as data in RunContext rather than propagated as a run-level fault. The
code violates the recording part: with the unknown-agent node as the
first completion, the except branch of run_graph reads the unbound nid
and the run raises UnboundLocalError. -/
theorem c6_unknown_agent_short_circuit (step : StepFn) (ctx : RunContext) :
    run_node step nodeW ctx = (.err "Unknown agent: nope", []) ∧
    run_node step nodeT ctx = (.err "Unknown tool: badtool", []) ∧
    run_graph step c6spec =
      (.error (.unboundLocalError "nid"), [.terminal "W" false]) :=
  ⟨rfl, rfl, rfl⟩

/-- C5: input resolution. Each placeholder occurrence substitutes
independently with surrounding literal text preserved (first conjunct:
a reference preceded by dollar-free text and followed by arbitrary text
substitutes in place while the rest of the string is scanned
recursively); the substitution is the missing sentinel when the node id
is absent, the missing_key sentinel when the key is absent from that
node's dict, str() of the looked-up value otherwise, and the badctx
sentinel when the stored entry is not a dict so the lookup raises;
resolution maps over the inputs, leaving every non-string value
unchanged. The resolver is a total function, so it never raises. -/
theorem c5_reference_resolution :
    (∀ (context : RunContext) (pre suf nid key : String),
      noDollar pre → validId nid → validId key →
      replaceRefs context (pre ++ refString nid key ++ suf) =
        pre ++ refLookup context nid key ++ replaceRefs context suf) ∧
    (∀ (context : RunContext) (nid key : String),
      context.lookup nid = none →
      refLookup context nid key = "<missing:" ++ nid ++ ">") ∧
    (∀ (context : RunContext) (nid key : String) (m : List (String × Value)),
      context.lookup nid = some (.vDict m) → m.lookup key = none →
      refLookup context nid key = "<missing_key:" ++ key ++ ">") ∧
    (∀ (context : RunContext) (nid key : String) (m : List (String × Value))
      (v : Value), context.lookup nid = some (.vDict m) →
      m.lookup key = some v → refLookup context nid key = pyStr v) ∧
    (∀ (context : RunContext) (nid key : String) (w : Value),
      context.lookup nid = some w → (∀ m, w ≠ .vDict m) →
      refLookup context nid key = "<badctx:" ++ nid ++ ">") ∧
    (∀ (context : RunContext) (node : NodeSpec),
      resolve_inputs node context =
        node.inputs.map (fun kv => (kv.1, resolveVal context kv.2))) ∧
    (∀ (context : RunContext) (v : Value), (∀ s, v ≠ .vStr s) →
      resolveVal context v = v) ∧
    (∀ (context : RunContext) (s : String),
      resolveVal context (.vStr s) = .vStr (replaceRefs context s)) := by
  refine ⟨replaceRefs_split, ?_, ?_, ?_, ?_, fun _ _ => rfl, ?_, fun _ _ => rfl⟩
  · intro context nid key h
    unfold refLookup
    rw [h]
  · intro context nid key m h1 h2
    unfold refLookup
    rw [h1]
    dsimp only
    rw [h2]
  · intro context nid key m v h1 h2
    unfold refLookup
    rw [h1]
    dsimp only
    rw [h2]
  · intro context nid key w h1 h2
    unfold refLookup
    rw [h1]
    cases w with
    | vDict m => exact absurd rfl (h2 m)
    | vNone => rfl
    | vBool b => rfl
    | vInt n => rfl
    | vStr s => rfl
    | vList l => rfl
  · intro context v hv
    cases v with
    | vStr s => exact absurd rfl (hv s)
    | vNone => rfl
    | vBool b => rfl
    | vInt n => rfl
    | vList l => rfl
    | vDict m => rfl

theorem c5_witness :
    noDollar "y: " ∧ validId "A" ∧ validId "x" ∧
    replaceRefs [("A", .vDict [("x", .vInt 5)])]
        ("y: " ++ refString "A" "x" ++ "!") =
      "y: " ++ refLookup [("A", .vDict [("x", .vInt 5)])] "A" "x" ++
        replaceRefs [("A", .vDict [("x", .vInt 5)])] "!" :=
  ⟨by decide, by decide, by decide,
   c5_reference_resolution.1 [("A", .vDict [("x", .vInt 5)])] "y: " "!" "A" "x"
     (by decide) (by decide) (by decide)⟩

/-- C7: the layer barrier. For every run of a validated graph, if the
trace contains a step invocation of a node v of a later generation,
then for every node u of any strictly earlier generation the trace
contains u's terminal event at a strictly earlier position: no node of
layer k+1 begins invocation before every node of layer k reached a
terminal state. -/
theorem c7_layer_barrier (step : StepFn) (spec : GraphSpec) (g : PyDiGraph)
    (hg : build_graph spec = .ok g) (i j : Nat) (li lj : List String)
    (u v : String) (hi : (topological_generations g)[i]? = some li)
    (hj : (topological_generations g)[j]? = some lj) (hij : i < j)
    (hu : u ∈ li) (hv : v ∈ lj) (n a : Nat)
    (hn : (run_graph step spec).2[n]? = some (.invoke v a)) :
    ∃ (m : Nat) (b : Bool), m < n ∧
      (run_graph step spec).2[m]? = some (.terminal u b) := by
  have hgr := build_graph_ok spec g hg
  subst hgr
  rw [run_graph_layers step spec _ hg] at hn ⊢
  exact procLayers_barrier step _ (attrWf_buildRaw spec)
    (topological_generations _) ⟨[], none⟩
    (kahnAux_disjoint _ _ _) i j li lj u v hi hj hij hu hv n a hn

theorem c7_witness :
    build_graph happyspec = .ok (buildRaw happyspec) ∧
    (topological_generations (buildRaw happyspec))[0]? = some ["A"] ∧
    (topological_generations (buildRaw happyspec))[1]? = some ["B"] ∧
    (0 : Nat) < 1 ∧ "A" ∈ ["A"] ∧ "B" ∈ ["B"] ∧
    (run_graph stepEcho happyspec).2[2]? = some (.invoke "B" 1) ∧
    ∃ (m : Nat) (b : Bool), m < 2 ∧
      (run_graph stepEcho happyspec).2[m]? = some (.terminal "A" b) :=
  ⟨rfl, rfl, rfl, by decide, by decide, by decide, rfl,
   c7_layer_barrier stepEcho happyspec (buildRaw happyspec) rfl 0 1
     ["A"] ["B"] "A" "B" rfl rfl (by decide) (by decide) (by decide) 2 1 rfl⟩

/-- C8: exponential backoff. The wait tenacity computes after failed
attempt n (wait_exponential with multiplier 0.5, min 0.5, max 4) equals
min(0.5 * 2^(n-1), 4) seconds for every n at least 1, and every retry
sequence's event trace consists of attempt n, then for each further
retry a sleep of exactly backoffWait m between attempts m and m+1. -/
theorem c8_backoff :
    (∀ n : Nat, 1 ≤ n → backoffWait n = min ((1 / 2 : ℚ) * 2 ^ (n - 1)) 4) ∧
    (∀ (step : StepFn) (node : NodeSpec) (inputs : List (String × Value))
      (fuel n : Nat), ∃ k,
      (retryGo step node inputs n fuel).2 = backoffTrace node.id n k) :=
  ⟨fun n _ => backoffWait_formula n,
   fun step node inputs fuel n => retryGo_events step node inputs fuel n⟩

theorem c8_witness :
    (1 : Nat) ≤ 3 ∧ backoffWait 3 = min ((1 / 2 : ℚ) * 2 ^ (3 - 1)) 4 :=
  ⟨by decide, c8_backoff.1 3 (by decide)⟩

/-- C10: a later node's reference to a failed dependency resolves
through the ordinary dict path: when A's recorded entry is the error map
with single key error, the placeholder for A.k substitutes str() of the
stored error text for k = error and the ordinary missing_key sentinel
for every other key; there is no dedicated failed-dependency
sentinel. -/
theorem c10_error_entry_resolution (context : RunContext) (A k : String)
    (v : Value) (hA : validId A) (hk : validId k)
    (hctx : context.lookup A = some (.vDict [("error", v)])) :
    replaceRefs context (refString A k) =
      (if k = "error" then pyStr v else "<missing_key:" ++ k ++ ">") := by
  rw [replaceRefs_single context A k hA hk]
  unfold refLookup
  rw [hctx]
  by_cases hke : k = "error"
  · have hb : (k == "error") = true := beq_iff_eq.mpr hke
    simp [List.lookup, hb, hke]
  · have hb : (k == "error") = false := beq_eq_false_iff_ne.mpr hke
    simp [List.lookup, hb, hke]

theorem c10_witness :
    validId "A" ∧ validId "x" ∧ validId "error" ∧
    ([("A", Value.vDict [("error", Value.vStr "boom")])] : RunContext).lookup
        "A" = some (.vDict [("error", .vStr "boom")]) ∧
    replaceRefs [("A", .vDict [("error", .vStr "boom")])] (refString "A" "x") =
      (if "x" = "error" then pyStr (Value.vStr "boom")
       else "<missing_key:" ++ "x" ++ ">") ∧
    replaceRefs [("A", .vDict [("error", .vStr "boom")])]
        (refString "A" "error") =
      (if "error" = "error" then pyStr (Value.vStr "boom")
       else "<missing_key:" ++ "error" ++ ">") :=
  ⟨by decide, by decide, by decide, rfl,
   c10_error_entry_resolution _ "A" "x" _ (by decide) (by decide) rfl,
   c10_error_entry_resolution _ "A" "error" _ (by decide) (by decide) rfl⟩
